/-
Verification of the retry/backoff core of `gax/src/call_option.rs`.

The embedding models:
  * durations as exact nanosecond counts (`Nat`);
  * the `f64` multiplier as the exact rational value of the IEEE-754 double,
    with `rnd` performing round-to-nearest-even at 53 significant bits
    (valid for the normal, non-overflowing range exercised here);
  * the thread-local RNG as an explicit stream of raw values with a cursor;
    `gen_range(0..hi)` reduces a raw value modulo `hi` (every element of the
    range is reached as the raw value varies) and fails on an empty range,
    mirroring the panic of `rand::Rng::gen_range`;
  * panics as `Except.error ()`.
-/
import Mathlib

set_option autoImplicit false
set_option maxRecDepth 100000

/-! ### Substring search (model of Rust `str::contains`) -/

/-- `beginsWith p s` holds when the pattern `p` is an initial segment of `s`. -/
def beginsWith : List Char → List Char → Bool
  | [], _ => true
  | _ :: _, [] => false
  | a :: p, b :: s => a = b && beginsWith p s

/-- `containsSub p s`: the pattern `p` occurs contiguously somewhere in `s`. -/
def containsSub (p : List Char) : List Char → Bool
  | [] => beginsWith p []
  | c :: t => beginsWith p (c :: t) || containsSub p t

/-! ### Base-2 logarithm on `Nat` (fuel-driven, kernel-reducible) -/

/-- Fuelled floor of log₂; enough fuel is `n` itself. -/
def log2F : Nat → Nat → Nat
  | 0, _ => 0
  | fuel + 1, n => if n ≤ 1 then 0 else log2F fuel (n / 2) + 1

/-- Floor of log₂ for positive naturals (`natLog2 0 = 0`). -/
def natLog2 (n : Nat) : Nat := log2F n n

/-! ### Exact model of `f64` rounding (round to nearest, ties to even) -/

/-- Nearest integer to a rational, ties going to the even integer. -/
def roundNE (q : ℚ) : ℤ :=
  if q - ⌊q⌋ < 1 / 2 then ⌊q⌋
  else if 1 / 2 < q - ⌊q⌋ then ⌊q⌋ + 1
  else if ⌊q⌋ % 2 = 0 then ⌊q⌋ else ⌊q⌋ + 1

/-- For `q > 0`, the `k` with `2 ^ k ≤ q < 2 ^ (k + 1)` (junk elsewhere). -/
def qlog2 (q : ℚ) : ℤ :=
  let c : ℤ := (natLog2 q.num.toNat : ℤ) - (natLog2 q.den : ℤ)
  if (2 : ℚ) ^ c ≤ q then c else c - 1

/-- Round a positive rational to 53 significant binary digits, nearest-even. -/
def rndP (q : ℚ) : ℚ :=
  ((roundNE (q * 2 ^ ((52 : ℤ) - qlog2 q)) : ℤ) : ℚ) * 2 ^ (qlog2 q - (52 : ℤ))

/-- The value of the IEEE-754 double nearest to `q` (normal range). -/
def rnd (q : ℚ) : ℚ :=
  if q = 0 then 0 else if 0 < q then rndP q else -(rndP (-q))

/-- `u128 as f64` (the conversion rounds to the nearest double). -/
def natToF64 (n : Nat) : ℚ := rnd (n : ℚ)

/-- `f64 as u64` in Rust: saturating conversion, truncating toward zero. -/
def f64toU64 (q : ℚ) : Nat :=
  if q < 0 then 0 else if (2 : ℚ) ^ (64 : ℕ) ≤ q then 2 ^ 64 - 1 else (⌊q⌋).toNat

/-! ### Data model from `call_option.rs` -/

/-- `tonic::Code` (gRPC status codes). -/
inductive Code where
  | ok | cancelled | unknown | invalidArgument | deadlineExceeded
  | notFound | alreadyExists | permissionDenied | resourceExhausted
  | failedPrecondition | aborted | outOfRange | unimplemented
  | internal | unavailable | dataLoss | unauthenticated
deriving DecidableEq, Repr

/-- `tonic::Status`: the code together with the message text. -/
structure Status where
  code : Code
  message : String
deriving DecidableEq, Repr

/-- `Backoff` struct: all durations in nanoseconds. `multiplier` carries the
exact rational value of the `f64` field. -/
structure Backoff where
  initial : Nat
  max : Nat
  multiplier : ℚ
  cur : Nat
deriving DecidableEq, Repr

/-- The thread-local RNG, as a raw stream plus a cursor. -/
structure RandGen where
  seq : Nat → Nat
  idx : Nat

/-- `rng.gen_range(0..hi)`: panics on an empty range, otherwise consumes one
raw value and reduces it into the range. -/
def genRange (g : RandGen) (hi : Nat) : Except Unit (Nat × RandGen) :=
  if hi = 0 then Except.error ()
  else Except.ok (g.seq g.idx % hi, { seq := g.seq, idx := g.idx + 1 })

/-- `Backoff::duration`: draw `1 + gen_range(0..cur)` (cast `as u64`), then
advance the envelope by `(cur as f64 * multiplier) as u64`, clamped to `max`. -/
def duration (b : Backoff) (g : RandGen) : Except Unit (Nat × Backoff × RandGen) :=
  let cur_val := b.cur
  match genRange g cur_val with
  | Except.error e => Except.error e
  | Except.ok (rv, g2) =>
    let d := (1 + rv) % 2 ^ 64
    let newcur := f64toU64 (rnd (natToF64 cur_val * b.multiplier))
    let newcur2 := if newcur > b.max then b.max else newcur
    Except.ok (d, { b with cur := newcur2 }, g2)

/-- `BackoffRetryer` struct. -/
structure BackoffRetryer where
  backoff : Backoff
  codes : List Code
  check_session_not_found : Bool

/-- The `for candidate in self.codes.iter()` loop: true as soon as the first
element equal to `code` is seen. -/
def codeMatchLoop (code : Code) : List Code → Bool
  | [] => false
  | c :: t => if c = code then true else codeMatchLoop code t

def rstStreamMsg : String := "stream terminated by RST_STREAM"
def http2Msg : String := "HTTP/2 error code: INTERNAL_ERROR"
def connClosedMsg : String := "Connection closed with unknown cause"
def eosMsg : String := "Received unexpected EOS on DATA frame from server"
def sessionNotFoundMsg : String := "Session not found:"

/-- All four allowlisted transient-INTERNAL markers are absent from `msg`. -/
def fourFalse (msg : String) : Prop :=
  containsSub rstStreamMsg.data msg.data = false ∧
  containsSub http2Msg.data msg.data = false ∧
  containsSub connClosedMsg.data msg.data = false ∧
  containsSub eosMsg.data msg.data = false

instance (msg : String) : Decidable (fourFalse msg) := by
  unfold fourFalse; infer_instance

/-- Wrap a successful backoff draw as the retryer's `Some(duration)` result,
propagating a panic. -/
def retryOk (rt : BackoffRetryer) (e : Except Unit (Nat × Backoff × RandGen)) :
    Except Unit (Option Nat × BackoffRetryer × RandGen) :=
  match e with
  | Except.error u => Except.error u
  | Except.ok (d, b2, g2) => Except.ok (some d, { rt with backoff := b2 }, g2)

/-- `BackoffRetryer::retry`: the INTERNAL gate, the configured-code loop, the
session-not-found heuristic, then the `None` default. -/
def retry (rt : BackoffRetryer) (st : Status) (g : RandGen) :
    Except Unit (Option Nat × BackoffRetryer × RandGen) :=
  if st.code = Code.internal ∧ fourFalse st.message then
    Except.ok (none, rt, g)
  else if codeMatchLoop st.code rt.codes = true then
    retryOk rt (duration rt.backoff g)
  else if rt.check_session_not_found = true ∧
      containsSub sessionNotFoundMsg.data st.message.data = true then
    retryOk rt (duration rt.backoff g)
  else Except.ok (none, rt, g)

/-- `impl Default for Backoff`: 250µs initial, 32000µs max, multiplier the
double nearest `1.30`, and a zero current envelope. -/
def defaultBackoff : Backoff :=
  { initial := 250000, max := 32000000, multiplier := rnd (13 / 10), cur := 0 }

/-- An all-zero RNG stream, for concrete runs. -/
def gZero : RandGen := { seq := fun _ => 0, idx := 0 }

/-- The envelope-update map of `duration` at the default configuration
(multiplier `1.30`, max 32 ms), as a function of the current envelope. -/
def stepEnvDefault (c : Nat) : Nat :=
  match duration { defaultBackoff with cur := c } gZero with
  | Except.ok (_, b2, _) => b2.cur
  | Except.error _ => 0

/-- The envelope after one successful draw: `(cur as f64 * multiplier) as u64`,
then clamped to `max` (same expression as inside `duration`). -/
def nextEnv (b : Backoff) : Nat :=
  if f64toU64 (rnd (natToF64 b.cur * b.multiplier)) > b.max then b.max
  else f64toU64 (rnd (natToF64 b.cur * b.multiplier))

/-- A stream whose every raw value is `2 ^ 64 - 1`. -/
def gTop : RandGen := { seq := fun _ => 2 ^ 64 - 1, idx := 0 }

/-- The default configuration with the envelope advanced to `initial`. -/
def b250 : Backoff := { defaultBackoff with cur := 250000 }

/-- A (constructible) state whose envelope holds 2⁶⁴ ns ≈ 584 years. -/
def bigEnv : Backoff :=
  { initial := 250000, max := 2 ^ 64, multiplier := rnd (13 / 10), cur := 2 ^ 64 }

/-- A malformed configuration: `max < initial` and `multiplier = 1 ≤ 1`. -/
def invalidBackoff : Backoff :=
  { initial := 250000, max := 1000, multiplier := 1, cur := 250000 }

/-- A retryer that retries on UNAVAILABLE, with an advanced envelope. -/
def unavailRetryer : BackoffRetryer :=
  { backoff := b250, codes := [Code.unavailable],
    check_session_not_found := false }

/-! ### Lemmas: the code-matching loop is a membership test -/

theorem codeMatchLoop_iff_mem (code : Code) (l : List Code) :
    codeMatchLoop code l = true ↔ code ∈ l := by
  induction l with
  | nil => simp [codeMatchLoop]
  | cons c t ih =>
    by_cases hc : c = code
    · subst hc; simp [codeMatchLoop]
    · simp only [codeMatchLoop, if_neg hc, ih, List.mem_cons]
      constructor
      · exact fun h => Or.inr h
      · rintro (h | h)
        · exact absurd h.symm hc
        · exact h

theorem codeMatchLoop_perm (code : Code) {l l2 : List Code} (h : l.Perm l2) :
    codeMatchLoop code l = codeMatchLoop code l2 := by
  cases hl : codeMatchLoop code l with
  | true =>
    have := (codeMatchLoop_iff_mem code l).mp hl
    exact ((codeMatchLoop_iff_mem code l2).mpr (h.mem_iff.mp this)).symm
  | false =>
    cases hl2 : codeMatchLoop code l2 with
    | true =>
      have := (codeMatchLoop_iff_mem code l2).mp hl2
      have := (codeMatchLoop_iff_mem code l).mpr (h.mem_iff.mpr this)
      rw [hl] at this
      exact this
    | false => rfl

/-! ### Lemmas: base-2 logarithm -/

theorem log2F_spec (fuel : Nat) :
    ∀ n : Nat, 1 ≤ n → n ≤ fuel →
      2 ^ log2F fuel n ≤ n ∧ n < 2 ^ (log2F fuel n + 1) := by
  induction fuel with
  | zero => intro n h1 h2; omega
  | succ fuel ih =>
    intro n h1 h2
    by_cases hn : n ≤ 1
    · have : n = 1 := by omega
      subst this
      simp [log2F]
    · have hrec := ih (n / 2) (by omega) (by omega)
      simp only [log2F, if_neg hn]
      rcases hrec with ⟨hl, hr⟩
      rw [pow_succ] at hr
      constructor
      · rw [pow_succ]; omega
      · rw [pow_succ, pow_succ]; omega

theorem natLog2_spec {n : Nat} (h : 1 ≤ n) :
    2 ^ natLog2 n ≤ n ∧ n < 2 ^ (natLog2 n + 1) :=
  log2F_spec n n h (Nat.le_refl n)

/-! ### Lemmas: round to nearest, ties to even -/

theorem roundNE_floor_le (q : ℚ) : ⌊q⌋ ≤ roundNE q := by
  unfold roundNE
  split
  · exact Int.le_refl _
  · split
    · omega
    · split <;> omega

theorem roundNE_le_floor_add_one (q : ℚ) : roundNE q ≤ ⌊q⌋ + 1 := by
  unfold roundNE
  split
  · omega
  · split
    · omega
    · split <;> omega

theorem roundNE_ge (q : ℚ) : q - 1 / 2 ≤ (roundNE q : ℚ) := by
  have h1 : (⌊q⌋ : ℚ) ≤ q := Int.floor_le q
  have h2 : q < ⌊q⌋ + 1 := Int.lt_floor_add_one q
  unfold roundNE
  split
  · rename_i hc; linarith
  · rename_i hc
    split
    · push_cast; linarith
    · split <;> push_cast <;> linarith [not_lt.mp hc]

theorem roundNE_le (q : ℚ) : (roundNE q : ℚ) ≤ q + 1 / 2 := by
  have h1 : (⌊q⌋ : ℚ) ≤ q := Int.floor_le q
  have h2 : q < ⌊q⌋ + 1 := Int.lt_floor_add_one q
  unfold roundNE
  split
  · linarith
  · rename_i hc
    split
    · rename_i hc2; push_cast; linarith
    · rename_i hc2
      have : q - ⌊q⌋ = 1 / 2 := le_antisymm (not_lt.mp hc2) (not_lt.mp hc)
      split <;> push_cast <;> linarith

theorem roundNE_intCast (n : ℤ) : roundNE (n : ℚ) = n := by
  unfold roundNE
  rw [Int.floor_intCast]
  norm_num

theorem roundNE_mono {x y : ℚ} (h : x ≤ y) : roundNE x ≤ roundNE y := by
  have hfm : ⌊x⌋ ≤ ⌊y⌋ := Int.floor_mono h
  by_cases heq : ⌊x⌋ = ⌊y⌋
  · have hxy : x - ⌊x⌋ ≤ y - ⌊y⌋ := by
      rw [heq]
      have : (⌊y⌋ : ℚ) = ⌊y⌋ := rfl
      linarith [h]
    unfold roundNE
    by_cases h1 : x - ⌊x⌋ < 1 / 2
    · rw [if_pos h1]
      split
      · omega
      · split
        · omega
        · split <;> omega
    · have h1y : ¬(y - ⌊y⌋ < 1 / 2) := by
        intro hy
        exact h1 (lt_of_le_of_lt hxy hy)
      rw [if_neg h1, if_neg h1y]
      by_cases h2 : 1 / 2 < x - ⌊x⌋
      · have h2y : 1 / 2 < y - ⌊y⌋ := lt_of_lt_of_le h2 hxy
        rw [if_pos h2, if_pos h2y]
        omega
      · rw [if_neg h2]
        by_cases h2y : 1 / 2 < y - ⌊y⌋
        · rw [if_pos h2y]
          split <;> omega
        · rw [if_neg h2y, heq]
  · have hx := roundNE_le_floor_add_one x
    have hy := roundNE_floor_le y
    omega

theorem roundNE_int_le {n : ℤ} {q : ℚ} (h : (n : ℚ) ≤ q) : n ≤ roundNE q := by
  have := roundNE_mono h
  rw [roundNE_intCast] at this
  exact this

/-! ### Lemmas: powers of two in `ℚ` -/

theorem two_zpow_pos (i : ℤ) : (0 : ℚ) < 2 ^ i := zpow_pos (by norm_num) i

theorem two_zpow_mul (i j : ℤ) : (2 : ℚ) ^ i * 2 ^ j = 2 ^ (i + j) :=
  (zpow_add₀ (by norm_num) i j).symm

theorem two_zpow_le {i j : ℤ} (h : i ≤ j) : (2 : ℚ) ^ i ≤ 2 ^ j :=
  zpow_le_zpow_right₀ (by norm_num) h

theorem two_zpow_lt_iff {i j : ℤ} : (2 : ℚ) ^ i < 2 ^ j ↔ i < j :=
  zpow_lt_zpow_iff_right₀ (by norm_num)

theorem two_zpow_natCast (n : ℕ) : (2 : ℚ) ^ (n : ℤ) = 2 ^ n := zpow_natCast 2 n

theorem two_zpow_int_cast (n : ℕ) : (((2 : ℤ) ^ n : ℤ) : ℚ) = (2 : ℚ) ^ (n : ℤ) := by
  push_cast
  rw [two_zpow_natCast]

/-! ### Lemmas: `qlog2` characterizes the binade -/

theorem qlog2_spec {q : ℚ} (hq : 0 < q) :
    (2 : ℚ) ^ qlog2 q ≤ q ∧ q < (2 : ℚ) ^ (qlog2 q + 1) := by
  have hnum : 0 < q.num := Rat.num_pos.mpr hq
  have hn : 1 ≤ q.num.toNat := by omega
  have hd : 1 ≤ q.den := q.den_pos
  obtain ⟨ha1, ha2⟩ := natLog2_spec hn
  obtain ⟨hb1, hb2⟩ := natLog2_spec hd
  set a := natLog2 q.num.toNat with hA
  set b := natLog2 q.den with hB
  have hden : (0 : ℚ) < (q.den : ℚ) := by exact_mod_cast q.den_pos
  have hqd : q * (q.den : ℚ) = (q.num : ℚ) := by
    have hne : (q.den : ℚ) ≠ 0 := ne_of_gt hden
    calc q * (q.den : ℚ) = (q.num : ℚ) / (q.den : ℚ) * (q.den : ℚ) := by
          rw [Rat.num_div_den q]
      _ = (q.num : ℚ) := div_mul_cancel₀ _ hne
  have hnum_toNat : ((q.num.toNat : ℕ) : ℚ) = (q.num : ℚ) := by
    have := Int.toNat_of_nonneg (le_of_lt hnum)
    exact_mod_cast congrArg (fun z : ℤ => (z : ℚ)) this
  have k1 : (2 : ℚ) ^ (a : ℤ) ≤ (q.num : ℚ) := by
    rw [two_zpow_natCast, ← hnum_toNat]
    exact_mod_cast ha1
  have k2 : (q.num : ℚ) < 2 ^ ((a : ℤ) + 1) := by
    have e : ((a : ℤ) + 1) = ((a + 1 : ℕ) : ℤ) := by push_cast; ring
    rw [e, two_zpow_natCast, ← hnum_toNat]
    exact_mod_cast ha2
  have k3 : (2 : ℚ) ^ (b : ℤ) ≤ (q.den : ℚ) := by
    rw [two_zpow_natCast]
    exact_mod_cast hb1
  have k4 : (q.den : ℚ) < 2 ^ ((b : ℤ) + 1) := by
    have e : ((b : ℤ) + 1) = ((b + 1 : ℕ) : ℤ) := by push_cast; ring
    rw [e, two_zpow_natCast]
    exact_mod_cast hb2
  have key1 : q < (2 : ℚ) ^ ((a : ℤ) - b + 1) := by
    have h1 : q * (q.den : ℚ) < 2 ^ ((a : ℤ) + 1) := by rw [hqd]; exact k2
    have h2 : (2 : ℚ) ^ ((a : ℤ) - b + 1) * 2 ^ (b : ℤ) = 2 ^ ((a : ℤ) + 1) := by
      rw [two_zpow_mul]; congr 1; ring
    have h3 : (2 : ℚ) ^ ((a : ℤ) - b + 1) * 2 ^ (b : ℤ) ≤
        (2 : ℚ) ^ ((a : ℤ) - b + 1) * (q.den : ℚ) :=
      mul_le_mul_of_nonneg_left k3 (le_of_lt (two_zpow_pos _))
    have h4 : q * (q.den : ℚ) < (2 : ℚ) ^ ((a : ℤ) - b + 1) * (q.den : ℚ) := by
      rw [h2] at h3; linarith
    exact (mul_lt_mul_right hden).mp h4
  have key2 : (2 : ℚ) ^ ((a : ℤ) - b - 1) < q := by
    have h1 : (2 : ℚ) ^ ((a : ℤ) - b - 1) * (q.den : ℚ) <
        (2 : ℚ) ^ ((a : ℤ) - b - 1) * 2 ^ ((b : ℤ) + 1) :=
      mul_lt_mul_of_pos_left k4 (two_zpow_pos _)
    have h2 : (2 : ℚ) ^ ((a : ℤ) - b - 1) * 2 ^ ((b : ℤ) + 1) = 2 ^ (a : ℤ) := by
      rw [two_zpow_mul]; congr 1; ring
    have h3 : (2 : ℚ) ^ ((a : ℤ) - b - 1) * (q.den : ℚ) < q * (q.den : ℚ) := by
      rw [h2] at h1
      rw [hqd]
      exact lt_of_lt_of_le h1 k1
    exact (mul_lt_mul_right hden).mp h3
  unfold qlog2
  by_cases hc : (2 : ℚ) ^ ((natLog2 q.num.toNat : ℤ) - (natLog2 q.den : ℤ)) ≤ q
  · rw [if_pos hc]
    exact ⟨hc, key1⟩
  · rw [if_neg hc]
    constructor
    · exact le_of_lt key2
    · have e : (a : ℤ) - b - 1 + 1 = (a : ℤ) - b := by ring
      rw [e]
      exact lt_of_not_ge hc

theorem qlog2_eq {q : ℚ} {k : ℤ} (hq : 0 < q)
    (h1 : (2 : ℚ) ^ k ≤ q) (h2 : q < (2 : ℚ) ^ (k + 1)) : qlog2 q = k := by
  obtain ⟨g1, g2⟩ := qlog2_spec hq
  have t1 := two_zpow_lt_iff.mp (lt_of_le_of_lt g1 h2)
  have t2 := two_zpow_lt_iff.mp (lt_of_le_of_lt h1 g2)
  omega

/-! ### Lemmas: `rnd` (53-bit round-to-nearest) -/

theorem rnd_eq_of_pos {q : ℚ} (hq : 0 < q) :
    rnd q = ((roundNE (q * 2 ^ ((52 : ℤ) - qlog2 q)) : ℤ) : ℚ) * 2 ^ (qlog2 q - (52 : ℤ)) := by
  unfold rnd rndP
  rw [if_neg (ne_of_gt hq), if_pos hq]

theorem scaled_lb {q : ℚ} (hq : 0 < q) :
    (2 : ℚ) ^ (52 : ℤ) ≤ q * 2 ^ ((52 : ℤ) - qlog2 q) := by
  obtain ⟨h1, _⟩ := qlog2_spec hq
  have := mul_le_mul_of_nonneg_right h1 (le_of_lt (two_zpow_pos ((52 : ℤ) - qlog2 q)))
  rw [two_zpow_mul] at this
  have e : qlog2 q + ((52 : ℤ) - qlog2 q) = 52 := by ring
  rw [e] at this
  exact this

theorem scaled_ub {q : ℚ} (hq : 0 < q) :
    q * 2 ^ ((52 : ℤ) - qlog2 q) < (2 : ℚ) ^ (53 : ℤ) := by
  obtain ⟨_, h2⟩ := qlog2_spec hq
  have := mul_lt_mul_of_pos_right h2 (two_zpow_pos ((52 : ℤ) - qlog2 q))
  rw [two_zpow_mul] at this
  have e : qlog2 q + 1 + ((52 : ℤ) - qlog2 q) = 53 := by ring
  rw [e] at this
  exact this

theorem roundNE_scaled_lb {q : ℚ} (hq : 0 < q) :
    (2 : ℤ) ^ (52 : ℕ) ≤ roundNE (q * 2 ^ ((52 : ℤ) - qlog2 q)) := by
  apply roundNE_int_le
  rw [two_zpow_int_cast]
  exact scaled_lb hq

theorem roundNE_scaled_ub {q : ℚ} (hq : 0 < q) :
    roundNE (q * 2 ^ ((52 : ℤ) - qlog2 q)) ≤ (2 : ℤ) ^ (53 : ℕ) := by
  have h1 := roundNE_le (q * 2 ^ ((52 : ℤ) - qlog2 q))
  have h2 := scaled_ub hq
  have h3 : ((roundNE (q * 2 ^ ((52 : ℤ) - qlog2 q)) : ℤ) : ℚ) < (2 : ℚ) ^ (53 : ℤ) + 1 := by
    linarith
  have h4 : roundNE (q * 2 ^ ((52 : ℤ) - qlog2 q)) < (2 : ℤ) ^ (53 : ℕ) + 1 := by
    exact_mod_cast h3
  omega

theorem rnd_lower {q : ℚ} (hq : 0 < q) : (2 : ℚ) ^ qlog2 q ≤ rnd q := by
  rw [rnd_eq_of_pos hq]
  have hM := roundNE_scaled_lb hq
  have h1 : ((2 : ℚ) ^ (52 : ℤ)) * 2 ^ (qlog2 q - (52 : ℤ)) ≤
      ((roundNE (q * 2 ^ ((52 : ℤ) - qlog2 q)) : ℤ) : ℚ) * 2 ^ (qlog2 q - (52 : ℤ)) := by
    apply mul_le_mul_of_nonneg_right _ (le_of_lt (two_zpow_pos _))
    exact_mod_cast hM
  rw [two_zpow_mul] at h1
  have e : (52 : ℤ) + (qlog2 q - 52) = qlog2 q := by ring
  rw [e] at h1
  exact h1

theorem rnd_upper {q : ℚ} (hq : 0 < q) : rnd q ≤ (2 : ℚ) ^ (qlog2 q + 1) := by
  rw [rnd_eq_of_pos hq]
  have hM := roundNE_scaled_ub hq
  have h1 : ((roundNE (q * 2 ^ ((52 : ℤ) - qlog2 q)) : ℤ) : ℚ) * 2 ^ (qlog2 q - (52 : ℤ)) ≤
      ((2 : ℚ) ^ (53 : ℤ)) * 2 ^ (qlog2 q - (52 : ℤ)) := by
    apply mul_le_mul_of_nonneg_right _ (le_of_lt (two_zpow_pos _))
    exact_mod_cast hM
  rw [two_zpow_mul] at h1
  have e : (53 : ℤ) + (qlog2 q - 52) = qlog2 q + 1 := by ring
  rw [e] at h1
  exact h1

theorem rnd_pos_of_pos {q : ℚ} (hq : 0 < q) : 0 < rnd q :=
  lt_of_lt_of_le (two_zpow_pos (qlog2 q)) (rnd_lower hq)

theorem rnd_err_ge {q : ℚ} (hq : 0 < q) : q - 2 ^ (qlog2 q - 53) ≤ rnd q := by
  rw [rnd_eq_of_pos hq]
  have h1 := roundNE_ge (q * 2 ^ ((52 : ℤ) - qlog2 q))
  have h2 : (q * 2 ^ ((52 : ℤ) - qlog2 q) - 1 / 2) * 2 ^ (qlog2 q - (52 : ℤ)) ≤
      ((roundNE (q * 2 ^ ((52 : ℤ) - qlog2 q)) : ℤ) : ℚ) * 2 ^ (qlog2 q - (52 : ℤ)) :=
    mul_le_mul_of_nonneg_right h1 (le_of_lt (two_zpow_pos _))
  have h3 : (q * 2 ^ ((52 : ℤ) - qlog2 q) - 1 / 2) * 2 ^ (qlog2 q - (52 : ℤ)) =
      q - 2 ^ (qlog2 q - 53) := by
    rw [sub_mul, mul_assoc, two_zpow_mul]
    have e1 : (52 : ℤ) - qlog2 q + (qlog2 q - 52) = 0 := by ring
    rw [e1, zpow_zero, mul_one]
    have h12 : (1 : ℚ) / 2 = 2 ^ (-1 : ℤ) := by norm_num
    rw [h12, two_zpow_mul]
    have e2 : (-1 : ℤ) + (qlog2 q - 52) = qlog2 q - 53 := by ring
    rw [e2]
  rw [h3] at h2
  exact h2

theorem rnd_zpow (i : ℤ) : rnd ((2 : ℚ) ^ i) = 2 ^ i := by
  have hp := two_zpow_pos i
  have hk : qlog2 ((2 : ℚ) ^ i) = i :=
    qlog2_eq hp (le_refl _) (two_zpow_lt_iff.mpr (lt_add_one i))
  rw [rnd_eq_of_pos hp, hk]
  have hsc : (2 : ℚ) ^ i * 2 ^ ((52 : ℤ) - i) = (((2 : ℤ) ^ (52 : ℕ) : ℤ) : ℚ) := by
    rw [two_zpow_mul, two_zpow_int_cast]
    congr 1
    ring
  rw [hsc, roundNE_intCast, two_zpow_int_cast, two_zpow_mul]
  congr 1
  ring

theorem rnd_mono {x y : ℚ} (hx : 0 < x) (h : x ≤ y) : rnd x ≤ rnd y := by
  have hy : 0 < y := lt_of_lt_of_le hx h
  have hkle : qlog2 x ≤ qlog2 y := by
    obtain ⟨x1, _⟩ := qlog2_spec hx
    obtain ⟨_, y2⟩ := qlog2_spec hy
    have := two_zpow_lt_iff.mp (lt_of_le_of_lt (le_trans x1 h) y2)
    omega
  rcases eq_or_lt_of_le hkle with heq | hlt
  · rw [rnd_eq_of_pos hx, rnd_eq_of_pos hy, ← heq]
    apply mul_le_mul_of_nonneg_right _ (le_of_lt (two_zpow_pos _))
    have := roundNE_mono (mul_le_mul_of_nonneg_right h (le_of_lt (two_zpow_pos ((52 : ℤ) - qlog2 x))))
    exact_mod_cast this
  · calc rnd x ≤ 2 ^ (qlog2 x + 1) := rnd_upper hx
      _ ≤ 2 ^ qlog2 y := two_zpow_le (by omega)
      _ ≤ rnd y := rnd_lower hy

theorem rnd_idem {q : ℚ} (hq : 0 < q) : rnd (rnd q) = rnd q := by
  have hMl := roundNE_scaled_lb hq
  have hMu := roundNE_scaled_ub hq
  have hrq := rnd_eq_of_pos hq
  set k := qlog2 q with hk
  set M := roundNE (q * 2 ^ ((52 : ℤ) - k)) with hM
  rcases eq_or_lt_of_le hMu with hMe | hMlt
  · rw [hrq, hMe]
    have h1 : (((2 : ℤ) ^ (53 : ℕ) : ℤ) : ℚ) * 2 ^ (k - (52 : ℤ)) = (2 : ℚ) ^ (k + 1) := by
      rw [two_zpow_int_cast, two_zpow_mul]
      congr 1
      ring
    rw [h1]
    exact rnd_zpow (k + 1)
  · have hMposQ : (0 : ℚ) < (M : ℚ) := by
      have : (0 : ℤ) < M := lt_of_lt_of_le (by positivity) hMl
      exact_mod_cast this
    have hpos : (0 : ℚ) < (M : ℚ) * 2 ^ (k - (52 : ℤ)) := mul_pos hMposQ (two_zpow_pos _)
    have hk2 : qlog2 ((M : ℚ) * 2 ^ (k - (52 : ℤ))) = k := by
      apply qlog2_eq hpos
      · have h1 : ((2 : ℚ) ^ (52 : ℤ)) * 2 ^ (k - (52 : ℤ)) ≤ (M : ℚ) * 2 ^ (k - (52 : ℤ)) := by
          apply mul_le_mul_of_nonneg_right _ (le_of_lt (two_zpow_pos _))
          exact_mod_cast hMl
        rw [two_zpow_mul] at h1
        have e : (52 : ℤ) + (k - 52) = k := by ring
        rw [e] at h1
        exact h1
      · have h1 : (M : ℚ) * 2 ^ (k - (52 : ℤ)) < ((2 : ℚ) ^ (53 : ℤ)) * 2 ^ (k - (52 : ℤ)) := by
          apply mul_lt_mul_of_pos_right _ (two_zpow_pos _)
          exact_mod_cast hMlt
        rw [two_zpow_mul] at h1
        have e : (53 : ℤ) + (k - 52) = k + 1 := by ring
        rw [e] at h1
        exact h1
    rw [hrq]
    rw [rnd_eq_of_pos hpos, hk2]
    have hsc : ((M : ℚ) * 2 ^ (k - (52 : ℤ))) * 2 ^ ((52 : ℤ) - k) = (M : ℚ) := by
      rw [mul_assoc, two_zpow_mul]
      have e : k - (52 : ℤ) + (52 - k) = 0 := by ring
      rw [e, zpow_zero, mul_one]
    rw [hsc, roundNE_intCast]

theorem rnd_natCast_eq {n : ℕ} (h1 : 1 ≤ n) (h53 : n ≤ 2 ^ 53) : rnd (n : ℚ) = n := by
  have hq : (0 : ℚ) < n := by exact_mod_cast h1
  obtain ⟨s1, s2⟩ := qlog2_spec hq
  set k := qlog2 (n : ℚ) with hk
  have hk0 : 0 ≤ k := by
    have h0 : (2 : ℚ) ^ (0 : ℤ) < 2 ^ (k + 1) := by
      rw [zpow_zero]
      exact lt_of_le_of_lt (by exact_mod_cast h1) s2
    have := two_zpow_lt_iff.mp h0
    omega
  have hn53 : (n : ℚ) ≤ (2 : ℚ) ^ (53 : ℤ) := by exact_mod_cast h53
  have hk53 : k ≤ 53 := by
    by_contra hcon
    push_neg at hcon
    have := two_zpow_lt_iff.mpr hcon
    have := le_trans s1 hn53
    linarith
  rcases eq_or_lt_of_le hk53 with he | hlt
  · have hn2 : (n : ℚ) = (2 : ℚ) ^ (53 : ℤ) := by
      apply le_antisymm hn53
      rw [← he]
      exact s1
    rw [hn2, rnd_zpow]
  · have hk52 : k ≤ 52 := by omega
    set e : ℕ := ((52 : ℤ) - k).toNat with he
    have hcast : (52 : ℤ) - k = (e : ℤ) := by omega
    have hsc : (n : ℚ) * 2 ^ ((52 : ℤ) - k) = (((n : ℤ) * 2 ^ e : ℤ) : ℚ) := by
      rw [hcast, two_zpow_natCast]
      push_cast
      ring
    rw [rnd_eq_of_pos hq, ← hk, hsc, roundNE_intCast]
    push_cast
    rw [mul_assoc, ← two_zpow_natCast e, ← hcast, two_zpow_mul]
    have e0 : (52 : ℤ) - k + (k - 52) = 0 := by ring
    rw [e0, zpow_zero, mul_one]

/-- A double that is strictly greater than 1 is at least `1 + 2⁻⁵²`. -/
theorem repr_ge_one_plus {m : ℚ} (hr : rnd m = m) (h1 : 1 < m) :
    1 + (2 : ℚ) ^ (-52 : ℤ) ≤ m := by
  have hm0 : 0 < m := lt_trans one_pos h1
  obtain ⟨s1, s2⟩ := qlog2_spec hm0
  set j := qlog2 m with hj
  have hj0 : 0 ≤ j := by
    have h0 : (2 : ℚ) ^ (0 : ℤ) < 2 ^ (j + 1) := by
      rw [zpow_zero]
      exact lt_trans h1 s2
    have := two_zpow_lt_iff.mp h0
    omega
  rcases eq_or_lt_of_le hj0 with hje | hjlt
  · set M := roundNE (m * 2 ^ ((52 : ℤ) - j)) with hM
    have hrm : m = (M : ℚ) * 2 ^ (j - (52 : ℤ)) := by
      conv_lhs => rw [← hr]
      exact rnd_eq_of_pos hm0
    have hMgt : (2 : ℤ) ^ (52 : ℕ) < M := by
      by_contra hc
      push_neg at hc
      have hcq : (M : ℚ) ≤ (2 : ℚ) ^ (52 : ℤ) := by exact_mod_cast hc
      have h2 : m ≤ (2 : ℚ) ^ (52 : ℤ) * 2 ^ (j - (52 : ℤ)) := by
        rw [hrm]
        exact mul_le_mul_of_nonneg_right hcq (le_of_lt (two_zpow_pos _))
      rw [two_zpow_mul] at h2
      have e : (52 : ℤ) + (j - 52) = j := by ring
      rw [e, ← hje, zpow_zero] at h2
      linarith
    have hM1 : (2 : ℤ) ^ (52 : ℕ) + 1 ≤ M := by omega
    have hq1 : ((2 : ℚ) ^ (52 : ℤ) + 1) * 2 ^ ((0 : ℤ) - 52) = 1 + (2 : ℚ) ^ (-52 : ℤ) := by
      rw [add_mul, one_mul, two_zpow_mul]
      norm_num
    have hq2 : ((2 : ℚ) ^ (52 : ℤ) + 1) * 2 ^ ((0 : ℤ) - 52) ≤ (M : ℚ) * 2 ^ ((0 : ℤ) - 52) := by
      apply mul_le_mul_of_nonneg_right _ (le_of_lt (two_zpow_pos _))
      exact_mod_cast hM1
    rw [hq1] at hq2
    rw [hrm, ← hje]
    exact hq2
  · have h2j : (2 : ℚ) ^ (1 : ℤ) ≤ 2 ^ j := two_zpow_le (by omega)
    have h2m : (2 : ℚ) ≤ m := by
      rw [zpow_one] at h2j
      linarith
    have hsmall : (2 : ℚ) ^ (-52 : ℤ) ≤ 1 := by
      have := two_zpow_le (show (-52 : ℤ) ≤ 0 by omega)
      rw [zpow_zero] at this
      exact this
    linarith

/-- The key growth fact: multiplying the rounded envelope by a representable
double `m > 1` and rounding again never falls below the original integer. -/
theorem rnd_mul_ge {c : ℕ} (hc : 1 ≤ c) {m : ℚ} (hr : rnd m = m) (hm : 1 < m) :
    (c : ℚ) ≤ rnd (rnd (c : ℚ) * m) := by
  have hcq : (0 : ℚ) < c := by exact_mod_cast hc
  have hm0 : (0 : ℚ) < m := lt_trans one_pos hm
  set a := rnd (c : ℚ) with ha
  have ha0 : 0 < a := rnd_pos_of_pos hcq
  have haidem : rnd a = a := rnd_idem hcq
  have ham : a ≤ a * m := le_mul_of_one_le_right (le_of_lt ha0) (le_of_lt hm)
  by_cases hac : (c : ℚ) ≤ a
  · have h1 : rnd a ≤ rnd (a * m) := rnd_mono ha0 ham
    rw [haidem] at h1
    exact le_trans hac h1
  · push_neg at hac
    obtain ⟨hck1, hck2⟩ := qlog2_spec hcq
    set k := qlog2 (c : ℚ) with hk
    have herr : (c : ℚ) - 2 ^ (k - (53 : ℤ)) ≤ a := rnd_err_ge hcq
    have halow : (2 : ℚ) ^ k ≤ a := by
      have h1 := rnd_mono (two_zpow_pos k) hck1
      rw [rnd_zpow] at h1
      exact h1
    have hka : qlog2 a = k := qlog2_eq ha0 halow (lt_trans hac hck2)
    have hm52 := repr_ge_one_plus hr hm
    have hx : a + (2 : ℚ) ^ (k - (52 : ℤ)) ≤ a * m := by
      have h1 : a * (1 + 2 ^ (-52 : ℤ)) ≤ a * m :=
        mul_le_mul_of_nonneg_left hm52 (le_of_lt ha0)
      have h2 : (2 : ℚ) ^ k * 2 ^ (-52 : ℤ) ≤ a * 2 ^ (-52 : ℤ) :=
        mul_le_mul_of_nonneg_right halow (le_of_lt (two_zpow_pos _))
      rw [two_zpow_mul] at h2
      have e : k + (-52 : ℤ) = k - 52 := by ring
      rw [e] at h2
      rw [mul_add, mul_one] at h1
      linarith
    have hxpos : (0 : ℚ) < a * m := mul_pos ha0 hm0
    by_cases hbin : (2 : ℚ) ^ (k + 1) ≤ a * m
    · have h1 := rnd_mono (two_zpow_pos (k + 1)) hbin
      rw [rnd_zpow] at h1
      exact le_trans (le_of_lt hck2) h1
    · push_neg at hbin
      have hxlow : (2 : ℚ) ^ k ≤ a * m := le_trans halow ham
      have hkx : qlog2 (a * m) = k := qlog2_eq hxpos hxlow hbin
      have hae : a = ((roundNE (a * 2 ^ ((52 : ℤ) - k)) : ℤ) : ℚ) * 2 ^ (k - (52 : ℤ)) := by
        conv_lhs => rw [← haidem]
        rw [rnd_eq_of_pos ha0, hka]
      set A := roundNE (a * 2 ^ ((52 : ℤ) - k)) with hA
      have hzz : (2 : ℚ) ^ (k - (52 : ℤ)) * 2 ^ ((52 : ℤ) - k) = 1 := by
        rw [two_zpow_mul]
        have e : k - (52 : ℤ) + (52 - k) = 0 := by ring
        rw [e, zpow_zero]
      have ha2 : a * 2 ^ ((52 : ℤ) - k) = (A : ℚ) := by
        calc a * 2 ^ ((52 : ℤ) - k)
            = ((A : ℚ) * 2 ^ (k - (52 : ℤ))) * 2 ^ ((52 : ℤ) - k) := by rw [← hae]
          _ = (A : ℚ) * ((2 : ℚ) ^ (k - (52 : ℤ)) * 2 ^ ((52 : ℤ) - k)) := mul_assoc _ _ _
          _ = (A : ℚ) := by rw [hzz, mul_one]
      have hsx : ((A + 1 : ℤ) : ℚ) ≤ (a * m) * 2 ^ ((52 : ℤ) - k) := by
        have h1 : (a + 2 ^ (k - (52 : ℤ))) * 2 ^ ((52 : ℤ) - k) ≤ (a * m) * 2 ^ ((52 : ℤ) - k) :=
          mul_le_mul_of_nonneg_right hx (le_of_lt (two_zpow_pos _))
        have h2 : (a + 2 ^ (k - (52 : ℤ))) * 2 ^ ((52 : ℤ) - k) = (A : ℚ) + 1 := by
          rw [add_mul, ha2, hzz]
        rw [h2] at h1
        push_cast
        exact h1
      have hrx : ((A : ℚ) + 1) ≤ ((roundNE ((a * m) * 2 ^ ((52 : ℤ) - k)) : ℤ) : ℚ) := by
        have h1 := roundNE_int_le hsx
        exact_mod_cast h1
      have hrnd : rnd (a * m) =
          ((roundNE ((a * m) * 2 ^ ((52 : ℤ) - k)) : ℤ) : ℚ) * 2 ^ (k - (52 : ℤ)) := by
        rw [rnd_eq_of_pos hxpos, hkx]
      have hge : a + (2 : ℚ) ^ (k - (52 : ℤ)) ≤ rnd (a * m) := by
        rw [hrnd]
        have h1 : ((A : ℚ) + 1) * 2 ^ (k - (52 : ℤ)) ≤
            ((roundNE ((a * m) * 2 ^ ((52 : ℤ) - k)) : ℤ) : ℚ) * 2 ^ (k - (52 : ℤ)) :=
          mul_le_mul_of_nonneg_right hrx (le_of_lt (two_zpow_pos _))
        have h2 : ((A : ℚ) + 1) * 2 ^ (k - (52 : ℤ)) = a + 2 ^ (k - (52 : ℤ)) := by
          rw [add_mul, one_mul, ← hae]
        rw [h2] at h1
        exact h1
      have hdd : (2 : ℚ) ^ (k - (52 : ℤ)) = 2 * 2 ^ (k - (53 : ℤ)) := by
        have h1 : (2 : ℚ) ^ (k - (52 : ℤ)) = 2 ^ (1 : ℤ) * 2 ^ (k - (53 : ℤ)) := by
          rw [two_zpow_mul]
          congr 1
          ring
        rw [h1, zpow_one]
      have hpos53 : (0 : ℚ) < 2 ^ (k - (53 : ℤ)) := two_zpow_pos _
      linarith

/-! ### Lemmas: `duration` equations and envelope facts -/

theorem duration_eq_error {b : Backoff} (g : RandGen) (h : b.cur = 0) :
    duration b g = Except.error () := by
  simp [duration, genRange, h]

theorem duration_eq_ok {b : Backoff} (g : RandGen) (h : b.cur ≠ 0) :
    duration b g = Except.ok ((1 + g.seq g.idx % b.cur) % 2 ^ 64,
      { b with cur := nextEnv b }, { seq := g.seq, idx := g.idx + 1 }) := by
  simp [duration, genRange, nextEnv, h]

theorem nextEnv_le_max (b : Backoff) : nextEnv b ≤ b.max := by
  unfold nextEnv
  split
  · exact Nat.le_refl _
  · omega

theorem nextEnv_ge (b : Backoff) (h1 : 1 ≤ b.cur) (h2 : b.cur < 2 ^ 64)
    (h3 : b.cur ≤ b.max) (hr : rnd b.multiplier = b.multiplier)
    (hm : 1 < b.multiplier) : b.cur ≤ nextEnv b := by
  unfold nextEnv
  set X := rnd (natToF64 b.cur * b.multiplier) with hX
  have hge : (b.cur : ℚ) ≤ X := by
    rw [hX]
    unfold natToF64
    exact rnd_mul_ge h1 hr hm
  have hv : b.cur ≤ f64toU64 X := by
    unfold f64toU64
    have hX0 : ¬(X < 0) := by
      push_neg
      exact le_trans (by positivity) hge
    rw [if_neg hX0]
    by_cases hbig : (2 : ℚ) ^ (64 : ℕ) ≤ X
    · rw [if_pos hbig]
      omega
    · rw [if_neg hbig]
      have hfl : (b.cur : ℤ) ≤ ⌊X⌋ := Int.le_floor.mpr (by exact_mod_cast hge)
      omega
  split
  · exact h3
  · exact hv

theorem nextEnv_pinned (b : Backoff) (hcur : b.cur = b.max) (h1 : 1 ≤ b.cur)
    (h2 : b.max < 2 ^ 64) (hr : rnd b.multiplier = b.multiplier)
    (hm : 1 < b.multiplier) : nextEnv b = b.max := by
  have hge := nextEnv_ge b h1 (by omega) (le_of_eq hcur) hr hm
  have hle := nextEnv_le_max b
  omega

/-! ### Claim theorems -/

/-- C1: the spec says the first draw on a fresh state samples as if the
envelope were `initial` (250µs by default).  The code does not: the default
state has `cur = 0`, so `duration()` evaluates `gen_range(0..0)`, an empty
range, and panics for every RNG — no draw in `[1ns, initial]` is produced. -/
theorem default_first_draw_panics :
    ∀ g : RandGen, duration defaultBackoff g = Except.error () :=
  fun g => duration_eq_error g rfl

/-- C2: whenever the envelope is zero (in particular for `Default`), the draw
is over the empty range `0..0` and panics: `duration` reaches its error
branch, `retry` can never return `Some(duration)` from such a state, and a
status that passes the gate and matches a configured code makes `retry`
panic rather than produce a retry decision. -/
theorem zero_envelope_draw_panics (b : Backoff) (g : RandGen) (h : b.cur = 0) :
    duration b g = Except.error ()
    ∧ (∀ (rt : BackoffRetryer) (st : Status), rt.backoff = b →
        ∀ (d : Nat) (rt2 : BackoffRetryer) (g2 : RandGen),
          retry rt st g ≠ Except.ok (some d, rt2, g2))
    ∧ (∀ (rt : BackoffRetryer) (st : Status), rt.backoff = b →
        ¬(st.code = Code.internal ∧ fourFalse st.message) →
        codeMatchLoop st.code rt.codes = true →
        retry rt st g = Except.error ()) := by
  refine ⟨duration_eq_error g h, ?_, ?_⟩
  · intro rt st hrb d rt2 g2 hcon
    have hz : rt.backoff.cur = 0 := by rw [hrb]; exact h
    unfold retry at hcon
    by_cases h1 : st.code = Code.internal ∧ fourFalse st.message
    · rw [if_pos h1] at hcon
      simp at hcon
    · rw [if_neg h1] at hcon
      by_cases h2 : codeMatchLoop st.code rt.codes = true
      · rw [if_pos h2, duration_eq_error g hz] at hcon
        simp [retryOk] at hcon
      · rw [if_neg h2] at hcon
        by_cases h3 : rt.check_session_not_found = true ∧
            containsSub sessionNotFoundMsg.data st.message.data = true
        · rw [if_pos h3, duration_eq_error g hz] at hcon
          simp [retryOk] at hcon
        · rw [if_neg h3] at hcon
          simp at hcon
  · intro rt st hrb hgate hmem
    have hz : rt.backoff.cur = 0 := by rw [hrb]; exact h
    unfold retry
    rw [if_neg hgate, if_pos hmem, duration_eq_error g hz]
    rfl

theorem zero_envelope_draw_panics_witness :
    duration defaultBackoff gZero = Except.error ()
    ∧ (∀ (rt : BackoffRetryer) (st : Status), rt.backoff = defaultBackoff →
        ∀ (d : Nat) (rt2 : BackoffRetryer) (g2 : RandGen),
          retry rt st gZero ≠ Except.ok (some d, rt2, g2))
    ∧ (∀ (rt : BackoffRetryer) (st : Status), rt.backoff = defaultBackoff →
        ¬(st.code = Code.internal ∧ fourFalse st.message) →
        codeMatchLoop st.code rt.codes = true →
        retry rt st gZero = Except.error ()) :=
  zero_envelope_draw_panics defaultBackoff gZero rfl

/-- C3: an INTERNAL status whose message contains none of the four
allowlisted substrings is classified `DoNotRetry` for every policy — no
matter the configured codes or the session-not-found flag, and even if the
message contains "Session not found:". -/
theorem internal_gate_blocks_all (rt : BackoffRetryer) (st : Status) (g : RandGen)
    (h1 : st.code = Code.internal) (h2 : fourFalse st.message) :
    retry rt st g = Except.ok (none, rt, g) := by
  unfold retry
  rw [if_pos ⟨h1, h2⟩]

theorem internal_gate_blocks_all_witness :
    retry { backoff := defaultBackoff, codes := [Code.internal],
            check_session_not_found := true }
        { code := Code.internal,
          message := "some unrelated internal failure Session not found: abc" }
        gZero
      = Except.ok (none,
          { backoff := defaultBackoff, codes := [Code.internal],
            check_session_not_found := true }, gZero) :=
  internal_gate_blocks_all _ _ _ rfl (by decide)

/-- C4: past the INTERNAL gate, membership of the status code in the
configured `codes` alone triggers `RetryAfter(next draw)`: the result is the
backoff draw wrapped as `Some`, it is invariant under permuting the codes
list, and it does not depend on the message text (as long as the gate still
passes). -/
theorem retryable_code_membership_draws (rt : BackoffRetryer) (st : Status) (g : RandGen)
    (hgate : ¬(st.code = Code.internal ∧ fourFalse st.message))
    (hmem : codeMatchLoop st.code rt.codes = true) :
    retry rt st g = retryOk rt (duration rt.backoff g)
    ∧ (∀ codes2 : List Code, rt.codes.Perm codes2 →
        retry { rt with codes := codes2 } st g =
          retryOk { rt with codes := codes2 } (duration rt.backoff g))
    ∧ (∀ msg2 : String, ¬(st.code = Code.internal ∧ fourFalse msg2) →
        retry rt { st with message := msg2 } g = retryOk rt (duration rt.backoff g)) := by
  refine ⟨?_, ?_, ?_⟩
  · unfold retry
    rw [if_neg hgate, if_pos hmem]
  · intro codes2 hperm
    have hmem2 : codeMatchLoop st.code codes2 = true := by
      rw [← codeMatchLoop_perm st.code hperm]
      exact hmem
    unfold retry
    simp only
    rw [if_neg hgate, if_pos hmem2]
  · intro msg2 hgate2
    unfold retry
    simp only
    rw [if_neg hgate2, if_pos hmem]

theorem retryable_code_membership_draws_witness :
    retry unavailRetryer { code := Code.unavailable, message := "anything" } gZero =
      retryOk unavailRetryer (duration unavailRetryer.backoff gZero) :=
  (retryable_code_membership_draws unavailRetryer
    { code := Code.unavailable, message := "anything" } gZero
    (by decide) (by decide)).1

/-- C5: past the gate and with no configured-code match, the session
heuristic decides: flag set and message containing "Session not found:"
yields `RetryAfter(next draw)`; flag unset, or marker absent, yields
`DoNotRetry`. -/
theorem session_not_found_heuristic (rt : BackoffRetryer) (st : Status) (g : RandGen)
    (hgate : ¬(st.code = Code.internal ∧ fourFalse st.message))
    (hmem : codeMatchLoop st.code rt.codes = false) :
    (rt.check_session_not_found = true ∧
        containsSub sessionNotFoundMsg.data st.message.data = true →
      retry rt st g = retryOk rt (duration rt.backoff g))
    ∧ (rt.check_session_not_found = false ∨
        containsSub sessionNotFoundMsg.data st.message.data = false →
      retry rt st g = Except.ok (none, rt, g)) := by
  have hmem2 : ¬(codeMatchLoop st.code rt.codes = true) := by simp [hmem]
  constructor
  · intro hsess
    unfold retry
    rw [if_neg hgate, if_neg hmem2, if_pos hsess]
  · intro hsess
    have hneg : ¬(rt.check_session_not_found = true ∧
        containsSub sessionNotFoundMsg.data st.message.data = true) := by
      rintro ⟨ha, hb⟩
      rcases hsess with hc | hc
      · rw [hc] at ha; cases ha
      · rw [hc] at hb; cases hb
    unfold retry
    rw [if_neg hgate, if_neg hmem2, if_neg hneg]

theorem session_not_found_heuristic_witness :
    retry { backoff := b250, codes := [], check_session_not_found := false }
        { code := Code.notFound, message := "Session not found: abc" } gZero
      = Except.ok (none,
          { backoff := b250, codes := [], check_session_not_found := false }, gZero) :=
  (session_not_found_heuristic
    { backoff := b250, codes := [], check_session_not_found := false }
    { code := Code.notFound, message := "Session not found: abc" } gZero
    (by decide) rfl).2 (Or.inl rfl)

/-- At the default configuration the envelope reaches exactly 32000000 ns
after 19 successful draws from 250000 ns, and is a fixed point there. -/
theorem defaultEnvelope_converges :
    Nat.iterate stepEnvDefault 19 250000 = 32000000 ∧
    stepEnvDefault 32000000 = 32000000 := by
  constructor
  · with_unfolding_all rfl
  · with_unfolding_all rfl

/-- C6: for a successful draw with a representable multiplier `> 1`, the new
envelope never exceeds `max`; from an envelope below 2⁶⁴ ns that is at most
`max` it never decreases; an envelope equal to `max < 2⁶⁴` stays pinned; and
at the default configuration (multiplier 1.30, max 32 ms) the envelope
reaches exactly 32000000 ns and stays there. -/
theorem envelope_invariants_and_convergence (b : Backoff) (g : RandGen)
    (d : Nat) (b2 : Backoff) (g2 : RandGen)
    (hr : rnd b.multiplier = b.multiplier) (hm : 1 < b.multiplier)
    (hstep : duration b g = Except.ok (d, b2, g2)) :
    b2.cur ≤ b.max
    ∧ (b.cur < 2 ^ 64 → b.cur ≤ b.max → b.cur ≤ b2.cur)
    ∧ (b.cur = b.max → b.max < 2 ^ 64 → b2.cur = b.max)
    ∧ Nat.iterate stepEnvDefault 19 250000 = 32000000
    ∧ stepEnvDefault 32000000 = 32000000 := by
  by_cases hz : b.cur = 0
  · rw [duration_eq_error g hz] at hstep
    cases hstep
  · rw [duration_eq_ok g hz] at hstep
    injection hstep with h2
    have hb2 : b2 = { b with cur := nextEnv b } :=
      (congrArg (fun p : Nat × Backoff × RandGen => p.2.1) h2).symm
    rw [hb2]
    exact ⟨nextEnv_le_max b,
      fun h64 hmax => nextEnv_ge b (Nat.pos_of_ne_zero hz) h64 hmax hr hm,
      fun hcur h64 => nextEnv_pinned b hcur (Nat.pos_of_ne_zero hz) h64 hr hm,
      defaultEnvelope_converges.1, defaultEnvelope_converges.2⟩

theorem envelope_invariants_and_convergence_witness :
    ({ b250 with cur := 325000 } : Backoff).cur ≤ b250.max
    ∧ (b250.cur < 2 ^ 64 → b250.cur ≤ b250.max →
        b250.cur ≤ ({ b250 with cur := 325000 } : Backoff).cur)
    ∧ (b250.cur = b250.max → b250.max < 2 ^ 64 →
        ({ b250 with cur := 325000 } : Backoff).cur = b250.max)
    ∧ Nat.iterate stepEnvDefault 19 250000 = 32000000
    ∧ stepEnvDefault 32000000 = 32000000 :=
  envelope_invariants_and_convergence b250 gZero 1 { b250 with cur := 325000 }
    { seq := gZero.seq, idx := 1 }
    (by with_unfolding_all rfl) (by with_unfolding_all decide)
    (by with_unfolding_all rfl)

/-- C7 counterexample: at an envelope of 2⁶⁴ ns (constructible, ≈ 584 years)
the draw `(1 + gen_range(0..2⁶⁴)) as u64` wraps and `duration` returns a
zero duration — outside the claimed inclusive range `[1, envelope]`. -/
theorem duration_returns_zero_at_huge_envelope :
    duration bigEnv gTop =
      Except.ok (0, { bigEnv with cur := 2 ^ 64 - 1 }, { seq := gTop.seq, idx := 1 }) := by
  with_unfolding_all rfl

/-- C7 amended: whenever the envelope is below 2⁶⁴ ns (every state the
default configuration can reach), a successful draw lies in `[1, envelope]`
— in particular it is never zero. -/
theorem duration_in_range_below_u64 (b : Backoff) (g : RandGen) (d : Nat)
    (b2 : Backoff) (g2 : RandGen) (hcur : b.cur < 2 ^ 64)
    (h : duration b g = Except.ok (d, b2, g2)) : 1 ≤ d ∧ d ≤ b.cur := by
  by_cases hz : b.cur = 0
  · rw [duration_eq_error g hz] at h
    cases h
  · rw [duration_eq_ok g hz] at h
    injection h with h2
    have hd : d = (1 + g.seq g.idx % b.cur) % 2 ^ 64 :=
      (congrArg (fun p : Nat × Backoff × RandGen => p.1) h2).symm
    have hrv : g.seq g.idx % b.cur < b.cur := Nat.mod_lt _ (Nat.pos_of_ne_zero hz)
    have hlt : 1 + g.seq g.idx % b.cur < 2 ^ 64 := by omega
    rw [hd, Nat.mod_eq_of_lt hlt]
    omega

theorem duration_in_range_below_u64_witness : 1 ≤ 1 ∧ 1 ≤ b250.cur :=
  duration_in_range_below_u64 b250 gZero 1 { b250 with cur := 325000 }
    { seq := gZero.seq, idx := 1 } (by decide) (by with_unfolding_all rfl)

/-- A successful draw branch of `retry`: the RNG advances by exactly one and
the decision is `Some`. -/
theorem retryOk_ok_cases (rt : BackoffRetryer) (g : RandGen)
    (x : Option Nat × BackoffRetryer × RandGen)
    (h : retryOk rt (duration rt.backoff g) = Except.ok x) :
    x.2.2.seq = g.seq ∧ x.2.2.idx = g.idx + 1 ∧ ∃ d : Nat, x.1 = some d := by
  by_cases hz : rt.backoff.cur = 0
  · rw [duration_eq_error g hz] at h
    simp [retryOk] at h
  · rw [duration_eq_ok g hz] at h
    simp only [retryOk] at h
    injection h with h2
    subst h2
    exact ⟨rfl, rfl, ⟨_, rfl⟩⟩

/-- C8: one call to `retry` consumes at most one random value; a `DoNotRetry`
outcome leaves both the retryer (hence the backoff envelope) and the RNG
exactly as they were; a `RetryAfter` outcome consumes exactly one value. -/
theorem single_draw_and_frame (rt : BackoffRetryer) (st : Status) (g : RandGen)
    (x : Option Nat × BackoffRetryer × RandGen)
    (h : retry rt st g = Except.ok x) :
    x.2.2.seq = g.seq ∧ x.2.2.idx ≤ g.idx + 1
    ∧ (x.1 = none → x.2.1 = rt ∧ x.2.2 = g)
    ∧ (∀ d : Nat, x.1 = some d → x.2.2.idx = g.idx + 1) := by
  unfold retry at h
  by_cases h1 : st.code = Code.internal ∧ fourFalse st.message
  · rw [if_pos h1] at h
    injection h with h2
    subst h2
    exact ⟨rfl, Nat.le_succ g.idx, fun _ => ⟨rfl, rfl⟩, fun d hd => by cases hd⟩
  · rw [if_neg h1] at h
    by_cases h2 : codeMatchLoop st.code rt.codes = true
    · rw [if_pos h2] at h
      obtain ⟨hs, hi, d, hd⟩ := retryOk_ok_cases rt g x h
      refine ⟨hs, by omega, fun hn => ?_, fun d2 hd2 => hi⟩
      rw [hd] at hn
      cases hn
    · rw [if_neg h2] at h
      by_cases h3 : rt.check_session_not_found = true ∧
          containsSub sessionNotFoundMsg.data st.message.data = true
      · rw [if_pos h3] at h
        obtain ⟨hs, hi, d, hd⟩ := retryOk_ok_cases rt g x h
        refine ⟨hs, by omega, fun hn => ?_, fun d2 hd2 => hi⟩
        rw [hd] at hn
        cases hn
      · rw [if_neg h3] at h
        injection h with h4
        subst h4
        exact ⟨rfl, Nat.le_succ g.idx, fun _ => ⟨rfl, rfl⟩, fun d hd => by cases hd⟩

theorem single_draw_and_frame_witness :
    ((none, unavailRetryer, gZero) : Option Nat × BackoffRetryer × RandGen).2.2.seq = gZero.seq
    ∧ ((none, unavailRetryer, gZero) : Option Nat × BackoffRetryer × RandGen).2.2.idx ≤ gZero.idx + 1
    ∧ (((none, unavailRetryer, gZero) : Option Nat × BackoffRetryer × RandGen).1 = none →
        ((none, unavailRetryer, gZero) : Option Nat × BackoffRetryer × RandGen).2.1 = unavailRetryer ∧
        ((none, unavailRetryer, gZero) : Option Nat × BackoffRetryer × RandGen).2.2 = gZero)
    ∧ (∀ d : Nat,
        ((none, unavailRetryer, gZero) : Option Nat × BackoffRetryer × RandGen).1 = some d →
        ((none, unavailRetryer, gZero) : Option Nat × BackoffRetryer × RandGen).2.2.idx = gZero.idx + 1) :=
  single_draw_and_frame unavailRetryer { code := Code.internal, message := "boom" } gZero
    (none, unavailRetryer, gZero) (by with_unfolding_all rfl)

/-- C9 counterexample: a `Backoff` violating both `multiplier > 1` and
`max ≥ initial` is obtained through the construction surface (public
fields), and `duration` operates on it without any rejection. -/
theorem invalid_config_constructible :
    invalidBackoff.max < invalidBackoff.initial
    ∧ ¬((1 : ℚ) < invalidBackoff.multiplier)
    ∧ duration invalidBackoff gZero =
        Except.ok (1, { invalidBackoff with cur := 1000 }, { seq := gZero.seq, idx := 1 }) := by
  refine ⟨by decide, by with_unfolding_all decide, by with_unfolding_all rfl⟩

/-- C9 amended: the module performs no construction-time validation at all —
`Backoff` has public fields and only a `Default` impl, every field
combination is accepted, and `duration` runs on any of them (the only
failure is the empty-range panic at `cur = 0`). -/
theorem no_construction_validation :
    ∀ (i mx : Nat) (mu : ℚ) (c : Nat) (g : RandGen), c ≠ 0 →
      ∃ (d : Nat) (b2 : Backoff) (g2 : RandGen),
        duration (Backoff.mk i mx mu c) g = Except.ok (d, b2, g2) := by
  intro i mx mu c g hc
  exact ⟨_, _, _, duration_eq_ok g hc⟩

theorem no_construction_validation_witness :
    ∃ (d : Nat) (b2 : Backoff) (g2 : RandGen),
      duration (Backoff.mk 250000 1000 1 250000) gZero = Except.ok (d, b2, g2) :=
  no_construction_validation 250000 1000 1 250000 gZero (by decide)

/-- C10: neither `duration` nor `retry` ever reads the `initial` field: a run
on a state differing only in `initial` (same envelope, max, multiplier, same
raw random values, same status and policy) produces the identical decision,
the identical drawn duration, and the identical successor state except for
the `initial` field itself being carried along. -/
theorem initial_field_never_read :
    (∀ (b : Backoff) (i : Nat) (g : RandGen),
      duration { b with initial := i } g =
        Except.map (fun p => (p.1, { p.2.1 with initial := i }, p.2.2)) (duration b g))
    ∧ (∀ (rt : BackoffRetryer) (st : Status) (i : Nat) (g : RandGen),
      retry { rt with backoff := { rt.backoff with initial := i } } st g =
        Except.map
          (fun p => (p.1, { p.2.1 with backoff := { p.2.1.backoff with initial := i } }, p.2.2))
          (retry rt st g)) := by
  have hdur : ∀ (b : Backoff) (i : Nat) (g : RandGen),
      duration { b with initial := i } g =
        Except.map (fun p => (p.1, { p.2.1 with initial := i }, p.2.2)) (duration b g) := by
    intro b i g
    by_cases hz : b.cur = 0
    · have hz2 : ({ b with initial := i } : Backoff).cur = 0 := hz
      rw [duration_eq_error g hz, duration_eq_error g hz2]
      rfl
    · have hz2 : ({ b with initial := i } : Backoff).cur ≠ 0 := hz
      rw [duration_eq_ok g hz, duration_eq_ok g hz2]
      rfl
  refine ⟨hdur, ?_⟩
  intro rt st i g
  unfold retry
  simp only
  by_cases h1 : st.code = Code.internal ∧ fourFalse st.message
  · simp only [if_pos h1]
    rfl
  · simp only [if_neg h1]
    by_cases h2 : codeMatchLoop st.code rt.codes = true
    · simp only [if_pos h2]
      rw [hdur rt.backoff i g]
      by_cases hz : rt.backoff.cur = 0
      · rw [duration_eq_error g hz]
        rfl
      · rw [duration_eq_ok g hz]
        rfl
    · simp only [if_neg h2]
      by_cases h3 : rt.check_session_not_found = true ∧
          containsSub sessionNotFoundMsg.data st.message.data = true
      · simp only [if_pos h3]
        rw [hdur rt.backoff i g]
        by_cases hz : rt.backoff.cur = 0
        · rw [duration_eq_error g hz]
          rfl
        · rw [duration_eq_ok g hz]
          rfl
      · simp only [if_neg h3]
        rfl
